import Mathlib

/-!
Verification development for the size-limit comparison action.

The definitions below are a shallow embedding of the TypeScript sources
(`src/format-size-limit.ts`, `src/comment.ts`, `src/package-manager.ts`,
`src/size-limit.ts`, `src/git.ts`, `src/index.ts`).  JavaScript numbers are
modelled as exact rationals (`Rat`); JavaScript objects used as string-keyed
maps are modelled as association lists in insertion order; asynchronous
external effects (git, the process runner, the GitHub comment store API and
`JSON.parse`) are modelled by explicit outcome parameters, and the functions
of the repository that consume them are translated faithfully.
-/

namespace SizeLimitAction

/-- A change, as in `src/format-size-limit.ts` (`interface Change`):
the raw percentage value, its direction flag, and the rendered string. -/
structure Change where
  value : Rat
  isPositive : Bool
  pretty : String
deriving DecidableEq

/-- Model of JavaScript `Math.sign` on (exact) numbers. -/
def mathSign (x : Rat) : Int :=
  if 0 < x then 1 else if x < 0 then -1 else 0

/-- Model of JavaScript `Math.abs` on (exact) numbers. -/
def mathAbs (x : Rat) : Rat :=
  if x < 0 then -x else x

/-- Model of JavaScript `Math.ceil` on (exact) numbers. -/
def mathCeil (x : Rat) : Int :=
  ⌈x⌉

/-- Model of the JavaScript number-to-string conversion for the value
interpolated inside `formatChange`: there the number is
`Math.ceil(Math.abs(value) * 100) / 100`, a non-negative multiple of `1/100`.
Given the numerator `k` of `k / 100`, JavaScript prints the quotient as a
decimal with at most two fractional digits and trailing zeros removed. -/
def hundredthsToString (k : Nat) : String :=
  if k % 100 = 0 then toString (k / 100)
  else if k % 10 = 0 then toString (k / 100) ++ "." ++ toString (k / 10 % 10)
  else if k % 100 < 10 then toString (k / 100) ++ ".0" ++ toString (k % 100)
  else toString (k / 100) ++ "." ++ toString (k % 100)

/-- Translation of `formatChange` (`src/format-size-limit.ts`): round the
absolute value up to two decimal places
(`const formatted = Math.ceil(Math.abs(value) * 100) / 100`), pick the sign
character and the directional glyph from `isPositive`, and render
`` `${isPositive ? "+" : "-"}${formatted}% ${emoji}` ``. -/
def formatChange (value : Rat) (isPositive : Bool) : Change :=
  let formatted : Nat := (mathCeil (mathAbs value * 100)).toNat
  { value := value
    isPositive := isPositive
    pretty :=
      (if isPositive then "+" else "-") ++ hundredthsToString formatted
        ++ "% " ++ (if isPositive then "▲" else "▼") }

/-- Translation of `calculateChange` (`src/format-size-limit.ts`). -/
def calculateChange (base current : Rat) : Change :=
  if base = 0 then
    formatChange 100 true
  else
    formatChange ((current - base) / base * 100) (mathSign (current - base) == 1)

theorem mathSign_eq_one_of_pos {x : Rat} (h : 0 < x) : mathSign x = 1 := by
  rw [mathSign, if_pos h]

theorem mathSign_eq_neg_one_of_neg {x : Rat} (h : x < 0) : mathSign x = -1 := by
  rw [mathSign, if_neg (by linarith), if_pos h]

theorem mathSign_eq_zero {x : Rat} (h : x = 0) : mathSign x = 0 := by
  rw [mathSign, if_neg (by simp [h]), if_neg (by simp [h])]

theorem mathAbs_of_nonneg {x : Rat} (h : 0 ≤ x) : mathAbs x = x := by
  rw [mathAbs, if_neg (by linarith)]

theorem mathAbs_of_neg {x : Rat} (h : x < 0) : mathAbs x = -x := by
  rw [mathAbs, if_pos h]

theorem mathCeil_eq {x : Rat} {z : Int} (h1 : (z : Rat) - 1 < x) (h2 : x ≤ z) :
    mathCeil x = z := by
  rw [mathCeil, Int.ceil_eq_iff]
  exact ⟨h1, h2⟩

/-- Helper to evaluate `calculateChange` at concrete non-zero bases: once the
direction bit and the ceiling numerator are known, the rendered string follows
by computation. -/
theorem calculateChange_pretty_eval (base current : Rat) (pos : Bool) (k : Int)
    (hbase : ¬ base = 0)
    (hpos : (mathSign (current - base) == 1) = pos)
    (hk : mathCeil (mathAbs ((current - base) / base * 100) * 100) = k) :
    (calculateChange base current).pretty =
      (if pos then "+" else "-") ++ hundredthsToString k.toNat
        ++ "% " ++ (if pos then "▲" else "▼") := by
  rw [calculateChange, if_neg hbase, formatChange]
  simp only [hpos, hk]

example : (calculateChange 100 150).pretty = "+50% ▲" := by
  rw [calculateChange_pretty_eval 100 150 true 5000 (by norm_num)
    (by rw [mathSign_eq_one_of_pos (by norm_num)]; decide)
    (by rw [mathAbs_of_nonneg (by norm_num)]; exact mathCeil_eq (by norm_num) (by norm_num))]
  decide

example : (calculateChange 100 100).pretty = "-0% ▼" := by
  rw [calculateChange_pretty_eval 100 100 false 0 (by norm_num)
    (by rw [mathSign_eq_zero (by norm_num)]; decide)
    (by rw [mathAbs_of_nonneg (by norm_num)]; exact mathCeil_eq (by norm_num) (by norm_num))]
  decide

example : (calculateChange 10000 10001).pretty = "+0.01% ▲" := by
  rw [calculateChange_pretty_eval 10000 10001 true 1 (by norm_num)
    (by rw [mathSign_eq_one_of_pos (by norm_num)]; decide)
    (by rw [mathAbs_of_nonneg (by norm_num)]; exact mathCeil_eq (by norm_num) (by norm_num))]
  decide

example : (calculateChange 1000 995).pretty = "-0.5% ▼" := by
  rw [calculateChange_pretty_eval 1000 995 false 50 (by norm_num)
    (by rw [mathSign_eq_neg_one_of_neg (by norm_num)]; decide)
    (by rw [mathAbs_of_neg (by norm_num)]; exact mathCeil_eq (by norm_num) (by norm_num))]
  decide

example : (calculateChange 10 1000).pretty = "+9900% ▲" := by
  rw [calculateChange_pretty_eval 10 1000 true 990000 (by norm_num)
    (by rw [mathSign_eq_one_of_pos (by norm_num)]; decide)
    (by rw [mathAbs_of_nonneg (by norm_num)]; exact mathCeil_eq (by norm_num) (by norm_num))]
  decide

/-- A size-limit measurement record, as in `src/format-size-limit.ts`
(`interface SizeLimitResult`): a name, a size, and optional timing data. -/
structure SizeLimitResult where
  name : String
  size : Rat
  loading : Option Rat := none
  running : Option Rat := none
  total : Option Rat := none
deriving DecidableEq

/-- A result set: a JavaScript object keyed by artifact name
(`Record<string, SizeLimitResult>`), modelled as an association list in
key-insertion order. -/
abbrev ResultSet : Type := List (String × SizeLimitResult)

/-- Property access `m[name]` on an object modelled as an association list:
the value at the first (and, for genuine objects, only) matching key. -/
def jsGet (m : ResultSet) (name : String) : Option SizeLimitResult :=
  (m.find? (fun p => p.1 == name)).map Prod.snd

/-- Keys of an object in insertion order (`Object.keys`). -/
def resultSetKeys (m : ResultSet) : List String :=
  m.map Prod.fst

/-- Helper for `firstSeenDedup`, carrying the set of names already seen. -/
def firstSeenDedupAux (seen : List String) : List String → List String
  | [] => []
  | a :: l =>
      if seen.contains a then firstSeenDedupAux seen l
      else a :: firstSeenDedupAux (a :: seen) l

/-- Model of `[...new Set(l)]`: deduplication keeping the first occurrence of
each element, in order. -/
def firstSeenDedup (l : List String) : List String :=
  firstSeenDedupAux [] l

/-- The size-only header (`SIZE_LIMIT_RESULTS_HEADER`). -/
def SIZE_LIMIT_RESULTS_HEADER : List String := ["Path", "Size"]

/-- The extended header (`SIZE_LIMIT_TIME_RESULTS_HEADER`). -/
def SIZE_LIMIT_TIME_RESULTS_HEADER : List String :=
  ["Path", "Size", "Loading time (on slow 3G)", "Running time (on Snapdragon 410)",
    "Total time"]

/-- The empty size result sentinel (`EMPTY_SIZE_RESULT`). -/
def EMPTY_SIZE_RESULT : SizeLimitResult :=
  { name := "-", size := 0 }

/-- The empty time result sentinel (`EMPTY_TIME_RESULT`). -/
def EMPTY_TIME_RESULT : SizeLimitResult :=
  { name := "-", size := 0, running := some 0, loading := some 0, total := some 0 }

/-- Model of the external `pretty-bytes` collaborator (used by `formatBytes`):
a humanized decimal byte string.  The exact text never matters to the
properties below; this model renders the scaled value with at most two
decimals, trailing zeros trimmed. -/
def prettyBytesAbs (size : Rat) : String :=
  if size < 1000 then hundredthsToString (mathCeil (size * 100)).toNat ++ " B"
  else if size < 1000000 then
    hundredthsToString (mathCeil (size / 1000 * 100)).toNat ++ " kB"
  else if size < 1000000000 then
    hundredthsToString (mathCeil (size / 1000000 * 100)).toNat ++ " MB"
  else hundredthsToString (mathCeil (size / 1000000000 * 100)).toNat ++ " GB"

/-- Model of the external `pretty-bytes` collaborator, with the sign. -/
def prettyBytes (size : Rat) : String :=
  if size < 0 then "-" ++ prettyBytesAbs (-size) else prettyBytesAbs size

/-- Translation of `formatBytes` (`src/format-size-limit.ts`):
`prettyBytes(size) ?? "0 B"`; the nullish fallback is unreachable because
`prettyBytes` always returns a string. -/
def formatBytes (size : Rat) : String :=
  prettyBytes size

/-- JavaScript number-to-string for the value interpolated inside
`formatTime`: `Math.ceil(seconds * 10) / 10` is a multiple of `1/10`,
printed with at most one fractional digit, a trailing zero removed. -/
def tenthsToString (k : Nat) : String :=
  if k % 10 = 0 then toString (k / 10)
  else toString (k / 10) ++ "." ++ toString (k % 10)

/-- Translation of `formatTime` (`src/format-size-limit.ts`): seconds with
one ceiling decimal when at least one second, whole ceiling milliseconds
otherwise. -/
def formatTime (seconds : Rat) : String :=
  if 1 ≤ seconds then tenthsToString (mathCeil (seconds * 10)).toNat ++ " s"
  else toString (mathCeil (seconds * 1000)) ++ " ms"

/-- Translation of `formatLine` (`src/format-size-limit.ts`): the JavaScript
truthiness test on the string `value` is the non-empty test. -/
def formatLine (value : String) (change : Change) : String :=
  if value ≠ "" then value ++ " (" ++ change.pretty ++ ")" else change.pretty

/-- Translation of `formatSizeResult` (`src/format-size-limit.ts`). -/
def formatSizeResult (name : String) (base current : SizeLimitResult) :
    List String :=
  [name, formatLine (formatBytes current.size) (calculateChange base.size current.size)]

/-- Translation of `formatTimeResult` (`src/format-size-limit.ts`); the `?? 0`
fallbacks are `Option.getD` on the optional timing fields. -/
def formatTimeResult (name : String) (base current : SizeLimitResult) :
    List String :=
  [name,
    formatLine (formatBytes current.size) (calculateChange base.size current.size),
    formatLine (formatTime (current.loading.getD 0))
      (calculateChange (base.loading.getD 0) (current.loading.getD 0)),
    formatLine (formatTime (current.running.getD 0))
      (calculateChange (base.running.getD 0) (current.running.getD 0)),
    formatTime (current.total.getD 0)]

/-- Translation of `hasTimingData` (`src/format-size-limit.ts`):
`result.total !== undefined`. -/
def hasTimingData (result : SizeLimitResult) : Bool :=
  result.total.isSome

/-- Translation of `formatResults` (`src/format-size-limit.ts`): names are the
first-seen deduplication of base keys then current keys; the extended header is
chosen when some name present in `current` has timing data; missing sides fall
back to the schema-shaped empty sentinel (`base[name] || emptyResult`). -/
def formatResults (base current : ResultSet) : List (List String) :=
  let names := firstSeenDedup (resultSetKeys base ++ resultSetKeys current)
  let hasTime := names.any (fun name =>
    match jsGet current name with
    | some r => hasTimingData r
    | none => false)
  let header := if hasTime then SIZE_LIMIT_TIME_RESULTS_HEADER
    else SIZE_LIMIT_RESULTS_HEADER
  let fields := names.map (fun name =>
    let emptyResult := if hasTime then EMPTY_TIME_RESULT else EMPTY_SIZE_RESULT
    let baseResult := (jsGet base name).getD emptyResult
    let currentResult := (jsGet current name).getD emptyResult
    if hasTime then formatTimeResult name baseResult currentResult
    else formatSizeResult name baseResult currentResult)
  header :: fields

/-- A concrete plain measurement used in examples and witnesses. -/
def samplePlainResult : SizeLimitResult :=
  { name := "a.js", size := 10 }

/-- A concrete timed measurement used in examples and witnesses. -/
def sampleTimedResult : SizeLimitResult :=
  { name := "a.js", size := 10, loading := some 1, running := some 1, total := some 2 }

example : formatResults [] [] = [["Path", "Size"]] := by decide
example :
    (formatResults [] [("a.js", samplePlainResult)]).head? =
      some SIZE_LIMIT_RESULTS_HEADER := by decide
example :
    (formatResults [] [("a.js", sampleTimedResult)]).head? =
      some SIZE_LIMIT_TIME_RESULTS_HEADER := by decide

/-- The fixed heading of the report comment (`SIZE_LIMIT_HEADING` in
`src/comment.ts`), used as the idempotency key; note the trailing space. -/
def SIZE_LIMIT_HEADING : String := "## size-limit report 📦 "

/-- The footer link of the report comment (`SIZE_LIMIT_FOOTER` in
`src/comment.ts`). -/
def SIZE_LIMIT_FOOTER : String :=
  "[Learn more about size-limit](https://github.com/ai/size-limit)"

/-- Model of the external `markdown-table` collaborator: one pipe-delimited
line per row, with a delimiter row after the header (alignment padding
elided; the exact text never matters to the properties below). -/
def markdownTable (rows : List (List String)) : String :=
  match rows with
  | [] => ""
  | header :: body =>
      String.intercalate "\n"
        (("| " ++ String.intercalate " | " header ++ " |")
          :: ("| " ++ String.intercalate " | " (header.map (fun _ => "---")) ++ " |")
          :: body.map (fun row => "| " ++ String.intercalate " | " row ++ " |"))

/-- Model of `String.prototype.startsWith`: the first argument begins with the
second.  (Computable replacement for the library string primitive, so that
concrete stores evaluate inside the kernel.) -/
def jsStartsWith (s p : String) : Bool :=
  p.data.isPrefixOf s.data

/-- Model of `String.prototype.endsWith`: the first argument ends with the
second. -/
def jsEndsWith (s p : String) : Bool :=
  p.data.isSuffixOf s.data

/-- Comparison metadata attached to a published report, as imported from
`./comment` by `src/index.ts` (`ComparisonMetadata`). -/
structure ComparisonMetadata where
  baseBranch : String
  baseHash : String
  headBranch : String
  headHash : String
deriving DecidableEq

/-- The Base metadata line of the report body. -/
def baseMetadataLine (metadata : ComparisonMetadata) : String :=
  "- Base: `" ++ metadata.baseBranch ++ "` (`" ++ metadata.baseHash ++ "`)"

/-- The Head metadata line of the report body. -/
def headMetadataLine (metadata : ComparisonMetadata) : String :=
  "- Head: `" ++ metadata.headBranch ++ "` (`" ++ metadata.headHash ++ "`)"

/-- The last-updated line of the report body; `generatedAt` is the already
rendered RFC-1123 UTC timestamp (`new Date().toUTCString()`). -/
def lastUpdatedLine (generatedAt : String) : String :=
  "*Last updated: " ++ generatedAt ++ "*"

/-- Modelled from the spec: the metadata-carrying comment body builder.  The
version of `formatSizeLimitResultsAsCommentBody` that takes a
`ComparisonMetadata` — imported by `src/index.ts` and exercised by the tests —
is absent from the available sources (`src/comment.ts` holds an older
one-argument version without the metadata lines).  Following the spec's
comparison report contract, the body is the heading, the rendered table, a
blank line, the Base and Head lines, a blank line, the last-updated timestamp
line and the footer link, joined with CRLF as in the present sources. -/
def formatSizeLimitResultsAsCommentBody (results : List (List String))
    (metadata : ComparisonMetadata) (generatedAt : String) : String :=
  String.intercalate "\r\n"
    [SIZE_LIMIT_HEADING,
      markdownTable results,
      "",
      baseMetadataLine metadata,
      headMetadataLine metadata,
      "",
      lastUpdatedLine generatedAt,
      SIZE_LIMIT_FOOTER]

/-- A comment of the external store, keyed by its numeric id. -/
structure Comment where
  id : Nat
  body : String
deriving DecidableEq

/-- The state of the external comment store at one pull request: the list of
comments, in creation order, as returned by `listComments`. -/
abbrev CommentStore : Type := List Comment

/-- Translation of `fetchSizeLimitCommentId` (`src/comment.ts`): the id of the
first listed comment whose body starts with the heading. -/
def fetchSizeLimitCommentId (store : CommentStore) : Option Nat :=
  (store.find? (fun c => jsStartsWith c.body SIZE_LIMIT_HEADING)).map Comment.id

/-- A fresh id for a created comment: one more than the largest id in the
store (the external store assigns strictly increasing positive ids). -/
def freshCommentId (store : CommentStore) : Nat :=
  (store.map Comment.id).foldr max 0 + 1

/-- Translation of `createSizeLimitComment` (`src/comment.ts`): the store
appends a new comment with a fresh id. -/
def createSizeLimitComment (store : CommentStore) (body : String) : CommentStore :=
  store ++ [{ id := freshCommentId store, body := body }]

/-- Translation of `updateSizeLimitComment` (`src/comment.ts`): the store
replaces the body of the comment with the given id. -/
def updateSizeLimitComment (store : CommentStore) (commentId : Nat)
    (body : String) : CommentStore :=
  store.map (fun c => if c.id = commentId then { id := c.id, body := body } else c)

/-- Translation of the publish section of `run` (`src/index.ts`, lines
139–164): fetch the existing report comment id; if there is none — the
JavaScript test `!sizeLimitComment` is also true for the id `0` — create a
comment, otherwise update it in place; a failing create or update is caught
and becomes a warning.  Returns the new store and the warnings. -/
def publishSizeLimitComment (store : CommentStore) (body : String)
    (createOk updateOk : Bool) : CommentStore × List String :=
  match fetchSizeLimitCommentId store with
  | none =>
      if createOk then (createSizeLimitComment store body, [])
      else (store, ["Failed to create PR comment"])
  | some commentId =>
      if commentId = 0 then
        if createOk then (createSizeLimitComment store body, [])
        else (store, ["Failed to create PR comment"])
      else
        if updateOk then (updateSizeLimitComment store commentId body, [])
        else (store, ["Failed to update PR comment"])

/-- The number of report comments in the store: those whose body starts with
the heading. -/
def headingCount (store : CommentStore) : Nat :=
  store.countP (fun c => jsStartsWith c.body SIZE_LIMIT_HEADING)

set_option maxRecDepth 4000

example :
    publishSizeLimitComment [] (SIZE_LIMIT_HEADING ++ "x") true true =
      ([{ id := 1, body := SIZE_LIMIT_HEADING ++ "x" }], []) := by decide
example :
    publishSizeLimitComment [{ id := 1, body := SIZE_LIMIT_HEADING ++ "x" }]
        (SIZE_LIMIT_HEADING ++ "y") true true =
      ([{ id := 1, body := SIZE_LIMIT_HEADING ++ "y" }], []) := by decide

/-- The package manager enum (`src/package-manager.ts`). -/
inductive PackageManager where
  | Npm
  | Yarn
  | Pnpm
  | Bun
  | Deno
deriving DecidableEq

/-- The string value of each `PackageManager` enum member. -/
def pmToString : PackageManager → String
  | .Npm => "npm"
  | .Yarn => "yarn"
  | .Pnpm => "pnpm"
  | .Bun => "bun"
  | .Deno => "deno"

/-- The enum members in declaration order (`Object.values(PackageManager)`). -/
def packageManagerValues : List PackageManager :=
  [.Npm, .Yarn, .Pnpm, .Bun, .Deno]

/-- Model of the whitespace class stripped by `String.prototype.trim`. -/
def isJsWhitespace (c : Char) : Bool :=
  c == ' ' || c == '\t' || c == '\n' || c == '\r' || c == '\x0b' || c == '\x0c'
    || c == '\u00A0'

/-- Model of `String.prototype.trim`: surrounding whitespace removed. -/
def jsTrim (s : String) : String :=
  String.mk (((s.data.dropWhile isJsWhitespace).reverse.dropWhile isJsWhitespace).reverse)

/-- Model of `String.prototype.toLowerCase` (the sources only compare against
the five ASCII package-manager names, for which the ASCII lowering agrees with
the JavaScript Unicode one). -/
def jsToLowerCase (s : String) : String :=
  String.mk (s.data.map Char.toLower)

/-- Translation of `packageManagerFromStringToEnum`
(`src/package-manager.ts`): the first enum member whose trimmed, lowercased
value equals the trimmed, lowercased input. -/
def packageManagerFromStringToEnum (packageManager : String) :
    Option PackageManager :=
  packageManagerValues.find? (fun manager =>
    jsToLowerCase (jsTrim (pmToString manager)) == jsToLowerCase (jsTrim packageManager))

/-- Translation of `getPackageManager` (`src/package-manager.ts`): map the
agent reported by the external `package-manager-detector` collaborator to the
enum, with `npm` as the fallback when nothing is detected. -/
def getPackageManager (detectedAgent : Option String) : PackageManager :=
  match detectedAgent with
  | some "npm" => .Npm
  | some "yarn" => .Yarn
  | some "yarn@berry" => .Yarn
  | some "pnpm" => .Pnpm
  | some "pnpm@6" => .Pnpm
  | some "bun" => .Bun
  | some "deno" => .Deno
  | _ => .Npm

/-- Translation of the installer resolution inside `execSizeLimit`
(`src/size-limit.ts`, lines 84–121): the destructuring
`packageManager = PackageManager.Npm` gives the option the default `Npm` when
unset, and `const manager = packageManager || (await getPackageManager(...))`
then keeps `packageManager` whenever its string value is truthy (non-empty),
so the detector fallback is consulted only for a falsy value. -/
def resolvePackageManager (optionsPackageManager : Option PackageManager)
    (detectedAgent : Option String) : PackageManager :=
  let packageManager := optionsPackageManager.getD PackageManager.Npm
  if pmToString packageManager ≠ "" then packageManager
  else getPackageManager detectedAgent

example : packageManagerFromStringToEnum " NPM " = some PackageManager.Npm := by decide
example : packageManagerFromStringToEnum "Yarn" = some PackageManager.Yarn := by decide
example : packageManagerFromStringToEnum "gradle" = none := by decide
example : resolvePackageManager none (some "bun") = PackageManager.Npm := by decide

/-- The result of `execSizeLimit` (`src/size-limit.ts`,
`ExecSizeLimitResult`). -/
structure ExecSizeLimitResult where
  status : Int
  output : String
  commitHash : String
deriving DecidableEq

/-- The pull request data the orchestration reads from the event payload. -/
structure PullRequestInfo where
  baseRef : String
  headRef : String
  number : Nat
deriving DecidableEq

/-- An externally visible step of the orchestration, recorded in a trace. -/
inductive RunEvent where
  | createWorktreeEv (path : String)
  | execSizeLimitEv (path : String)
  | removeWorktreeEv (path : String)
deriving DecidableEq

/-- The data extracted from the two analysis chains by `run`
(`src/index.ts`, lines 100–104). -/
structure AnalysisOutcome where
  baseOutput : String
  baseHash : String
  status : Int
  output : String
  headHash : String
deriving DecidableEq

/-- One complete set of external outcomes driving a `run` (`src/index.ts`):
the event payload, the action inputs, the git/process outcomes of each chain,
the `JSON.parse` outcomes (`parseResults` applied to each chain's output;
`JSON.parse` itself is an external runtime function), the comment store and
the publish outcomes, and the rendered timestamp. -/
structure RunInput where
  pullRequest : Option PullRequestInfo
  skipStepInput : String
  packageManagerInput : String
  createBaseWorktree : Except String Unit
  createHeadWorktree : Except String Unit
  baseExec : Except String ExecSizeLimitResult
  headExec : Except String ExecSizeLimitResult
  removeBaseWorktree : Except String Unit
  removeHeadWorktree : Except String Unit
  baseParse : Except String ResultSet
  headParse : Except String ResultSet
  store : CommentStore
  createCommentOk : Bool
  updateCommentOk : Bool
  now : String

/-- What a `run` leaves behind: the trace of external steps, the warnings, the
failure signal (`setFailed`) with its message, and the comment store. -/
structure RunResult where
  trace : List RunEvent
  warnings : List String
  failed : Bool
  failedMessage : Option String
  store : CommentStore

/-- The base worktree path chosen by `run` (`src/index.ts`). -/
def baseWorktreePath : String := ".git-worktree-base"

/-- The head worktree path chosen by `run` (`src/index.ts`). -/
def headWorktreePath : String := ".git-worktree-head"

/-- Translation of `removeWorktree` (`src/git.ts`): a failed removal is
logged as a warning and never re-thrown. -/
def removeWorktree (outcome : Except String Unit) (worktreePath : String) :
    List String :=
  match outcome with
  | .ok _ => []
  | .error message =>
      ["Failed to remove worktree at " ++ worktreePath ++ ": " ++ message]

/-- The `try` block of the comparison (`src/index.ts`, lines 67–104):
`Promise.all` over the two worktree creations, then `Promise.all` over the
two analysis chains, rejecting with the first failure. -/
def innerTryResult (input : RunInput) : Except String AnalysisOutcome :=
  match input.createBaseWorktree with
  | .error m => .error m
  | .ok _ =>
    match input.createHeadWorktree with
    | .error m => .error m
    | .ok _ =>
      match input.baseExec with
      | .error m => .error m
      | .ok baseResult =>
        match input.headExec with
        | .error m => .error m
        | .ok headResult =>
            .ok { baseOutput := baseResult.output
                  baseHash := baseResult.commitHash
                  status := headResult.status
                  output := headResult.output
                  headHash := headResult.commitHash }

/-- The trace of the `try` block: both creations are always attempted; the
analysis chains start only when both creations succeeded. -/
def innerTryTrace (input : RunInput) : List RunEvent :=
  [RunEvent.createWorktreeEv baseWorktreePath,
    RunEvent.createWorktreeEv headWorktreePath] ++
    (match input.createBaseWorktree, input.createHeadWorktree with
     | .ok _, .ok _ =>
        [RunEvent.execSizeLimitEv baseWorktreePath,
          RunEvent.execSizeLimitEv headWorktreePath]
     | _, _ => [])

/-- The comparison continuation of `run` (`src/index.ts`, lines 110–169): the
analysis join, the non-fatal base parse, the fatal head parse, the report
building and publishing with warnings-only failures, and the exit signal
`if (status > 0) setFailed("Size limit exceeded")`.  The trace and the removal
warnings of the `finally` block are attached by `run` itself. -/
def runComparison (input : RunInput) (pr : PullRequestInfo) : RunResult :=
  match innerTryResult input with
  | .error message =>
      { trace := [], warnings := [], failed := true
        failedMessage := some message, store := input.store }
  | .ok analysis =>
    match input.baseParse with
    | .error message =>
        { trace := []
          warnings :=
            ["Could not parse base branch size-limit results. Skipping size-limit comment. "
              ++ message]
          failed := false, failedMessage := none, store := input.store }
    | .ok base =>
      match input.headParse with
      | .error message =>
          { trace := [], warnings := [], failed := true
            failedMessage := some
              ("Error parsing size-limit output. The output should be a JSON. " ++ message)
            store := input.store }
      | .ok current =>
          let metadata : ComparisonMetadata :=
            { baseBranch := pr.baseRef, baseHash := analysis.baseHash
              headBranch := pr.headRef, headHash := analysis.headHash }
          let body := formatSizeLimitResultsAsCommentBody
            (formatResults base current) metadata input.now
          let published := publishSizeLimitComment input.store body
            input.createCommentOk input.updateCommentOk
          { trace := [], warnings := published.2
            failed := decide (0 < analysis.status)
            failedMessage :=
              if 0 < analysis.status then some "Size limit exceeded" else none
            store := published.1 }

/-- Translation of `run` (`src/index.ts`): validation, then the comparison
inside the `try`/`finally` whose `finally` always removes both worktrees
(recording both removal events and collecting removal warnings), then the
continuation of `runComparison`. -/
def run (input : RunInput) : RunResult :=
  match input.pullRequest with
  | none =>
      { trace := [], warnings := [], failed := true
        failedMessage := some "Only pull_request workflows are supported"
        store := input.store }
  | some pr =>
    if input.skipStepInput ≠ "" ∧ input.skipStepInput ≠ "install"
        ∧ input.skipStepInput ≠ "build" then
      { trace := [], warnings := [], failed := true
        failedMessage := some ("Invalid skip step: " ++ input.skipStepInput)
        store := input.store }
    else if input.packageManagerInput ≠ ""
        ∧ packageManagerFromStringToEnum input.packageManagerInput = none then
      { trace := [], warnings := [], failed := true
        failedMessage := some ("Invalid package manager: " ++ input.packageManagerInput)
        store := input.store }
    else
      let outcome := runComparison input pr
      { trace := innerTryTrace input ++
          [RunEvent.removeWorktreeEv baseWorktreePath,
            RunEvent.removeWorktreeEv headWorktreePath]
        warnings :=
          removeWorktree input.removeBaseWorktree baseWorktreePath ++
            removeWorktree input.removeHeadWorktree headWorktreePath ++
              outcome.warnings
        failed := outcome.failed
        failedMessage := outcome.failedMessage
        store := outcome.store }

theorem mem_firstSeenDedupAux (l : List String) :
    ∀ (seen : List String) (a : String),
      a ∈ firstSeenDedupAux seen l ↔ a ∈ l ∧ a ∉ seen := by
  induction l with
  | nil => intro seen a; simp [firstSeenDedupAux]
  | cons b l ih =>
      intro seen a
      rw [firstSeenDedupAux]
      by_cases hb : b ∈ seen
      · rw [if_pos (by simpa using hb), ih]
        constructor
        · rintro ⟨h1, h2⟩; exact ⟨List.mem_cons_of_mem _ h1, h2⟩
        · rintro ⟨h1, h2⟩
          rcases List.mem_cons.mp h1 with rfl | h1
          · exact absurd hb h2
          · exact ⟨h1, h2⟩
      · rw [if_neg (by simpa using hb)]
        constructor
        · intro hmem
          rcases List.mem_cons.mp hmem with rfl | hmem
          · exact ⟨List.mem_cons_self a l, hb⟩
          · have h := (ih (b :: seen) a).mp hmem
            exact ⟨List.mem_cons_of_mem _ h.1,
              fun hs => h.2 (List.mem_cons_of_mem _ hs)⟩
        · rintro ⟨h1, h2⟩
          rcases List.mem_cons.mp h1 with rfl | h1
          · exact List.mem_cons_self a _
          · by_cases hab : a = b
            · subst hab; exact List.mem_cons_self a _
            · refine List.mem_cons_of_mem _ ((ih (b :: seen) a).mpr ⟨h1, ?_⟩)
              intro hs
              rcases List.mem_cons.mp hs with h | h
              · exact hab h
              · exact h2 h

theorem nodup_firstSeenDedupAux (l : List String) :
    ∀ seen : List String, (firstSeenDedupAux seen l).Nodup := by
  induction l with
  | nil => intro seen; simp [firstSeenDedupAux]
  | cons b l ih =>
      intro seen
      rw [firstSeenDedupAux]
      by_cases hb : b ∈ seen
      · rw [if_pos (by simpa using hb)]; exact ih seen
      · rw [if_neg (by simpa using hb)]
        refine List.nodup_cons.mpr ⟨fun hmem => ?_, ih (b :: seen)⟩
        exact ((mem_firstSeenDedupAux l _ b).mp hmem).2 (List.mem_cons_self b seen)

theorem sublist_firstSeenDedupAux (l : List String) :
    ∀ seen : List String, (firstSeenDedupAux seen l).Sublist l := by
  induction l with
  | nil => intro seen; simp [firstSeenDedupAux]
  | cons b l ih =>
      intro seen
      rw [firstSeenDedupAux]
      by_cases hb : b ∈ seen
      · rw [if_pos (by simpa using hb)]; exact (ih seen).cons b
      · rw [if_neg (by simpa using hb)]; exact (ih (b :: seen)).cons₂ b

theorem mem_firstSeenDedup (l : List String) (a : String) :
    a ∈ firstSeenDedup l ↔ a ∈ l := by
  rw [firstSeenDedup, mem_firstSeenDedupAux]
  simp

theorem nodup_firstSeenDedup (l : List String) : (firstSeenDedup l).Nodup :=
  nodup_firstSeenDedupAux l []

theorem sublist_firstSeenDedup (l : List String) :
    (firstSeenDedup l).Sublist l :=
  sublist_firstSeenDedupAux l []

theorem mem_of_jsGet_eq_some {m : ResultSet} {n : String} {r : SizeLimitResult}
    (h : jsGet m n = some r) : (n, r) ∈ m := by
  rw [jsGet] at h
  rcases Option.map_eq_some'.mp h with ⟨q, hfind, rfl⟩
  have hq := List.find?_some hfind
  have hmem := List.mem_of_find?_eq_some hfind
  have heq : q.1 = n := by simpa using hq
  rwa [← heq]

theorem jsGet_eq_some_of_mem {m : ResultSet} {n : String} {r : SizeLimitResult}
    (hnodup : (resultSetKeys m).Nodup) (hmem : (n, r) ∈ m) :
    jsGet m n = some r := by
  induction m with
  | nil => cases hmem
  | cons p m ih =>
      rw [resultSetKeys, List.map_cons, List.nodup_cons] at hnodup
      rcases List.mem_cons.mp hmem with rfl | hmem
      · have hfind : List.find? (fun q => q.1 == n) ((n, r) :: m) = some (n, r) :=
          List.find?_cons_of_pos m (by simp)
        rw [jsGet, hfind]
        rfl
      · have hne : ¬ ((fun q : String × SizeLimitResult => q.1 == n) p = true) := by
          intro heq
          exact hnodup.1 (by
            rw [show p.1 = n from by simpa using heq]
            exact List.mem_map.mpr ⟨(n, r), hmem, rfl⟩)
        have hfind : List.find? (fun q => q.1 == n) (p :: m) =
            List.find? (fun q => q.1 == n) m :=
          List.find?_cons_of_neg m hne
        rw [jsGet, hfind]
        exact ih hnodup.2 hmem

theorem formatResults_hasTime_iff (base current : ResultSet)
    (hnodup : (resultSetKeys current).Nodup) :
    ((firstSeenDedup (resultSetKeys base ++ resultSetKeys current)).any (fun name =>
        match jsGet current name with
        | some r => hasTimingData r
        | none => false) = true)
      ↔ ∃ p ∈ current, p.2.total.isSome = true := by
  constructor
  · intro h
    rcases List.any_eq_true.mp h with ⟨n, _, hcond⟩
    cases hget : jsGet current n with
    | none => rw [hget] at hcond; cases hcond
    | some r =>
        rw [hget] at hcond
        exact ⟨(n, r), mem_of_jsGet_eq_some hget, by simpa [hasTimingData] using hcond⟩
  · rintro ⟨⟨n, r⟩, hmem, htot⟩
    apply List.any_eq_true.mpr
    refine ⟨n, ?_, ?_⟩
    · rw [mem_firstSeenDedup]
      exact List.mem_append_right _ (List.mem_map.mpr ⟨(n, r), hmem, rfl⟩)
    · rw [jsGet_eq_some_of_mem hnodup hmem]
      simpa [hasTimingData] using htot

/-- C4: the header of `formatResults base current` is the extended five-column
schema exactly when some artifact present in `current` (the head result set)
has timing data (`total` defined); otherwise — even when `base` has timing
data — it is the two-column size-only schema. -/
theorem formatResults_header_selection (base current : ResultSet)
    (hnodup : (resultSetKeys current).Nodup) :
    ((formatResults base current).head? = some SIZE_LIMIT_TIME_RESULTS_HEADER
        ↔ ∃ p ∈ current, p.2.total.isSome = true)
    ∧ ((formatResults base current).head? = some SIZE_LIMIT_RESULTS_HEADER
        ↔ ¬ ∃ p ∈ current, p.2.total.isSome = true) := by
  have key := formatResults_hasTime_iff base current hnodup
  by_cases h : (firstSeenDedup (resultSetKeys base ++ resultSetKeys current)).any
      (fun name =>
        match jsGet current name with
        | some r => hasTimingData r
        | none => false) = true
  · rw [← key]
    simp [formatResults, h, SIZE_LIMIT_RESULTS_HEADER, SIZE_LIMIT_TIME_RESULTS_HEADER]
  · rw [← key]
    simp only [Bool.not_eq_true] at h
    simp [formatResults, h, SIZE_LIMIT_RESULTS_HEADER, SIZE_LIMIT_TIME_RESULTS_HEADER]

/-- A convenient witness pair: a base with timing data and a head without. -/
def witnessTimedBase : ResultSet :=
  [("a.js", sampleTimedResult)]

/-- A head result set without timing data, for the C4 witness. -/
def witnessPlainHead : ResultSet :=
  [("a.js", samplePlainResult)]

theorem formatResults_header_selection_witness :
    (formatResults witnessTimedBase witnessPlainHead).head? =
      some SIZE_LIMIT_RESULTS_HEADER :=
  (formatResults_header_selection witnessTimedBase witnessPlainHead
    (by decide)).2.mpr (by decide)

theorem formatResults_drop_one_map_head (base current : ResultSet) :
    ((formatResults base current).drop 1).map (fun row => row.headD "") =
      firstSeenDedup (resultSetKeys base ++ resultSetKeys current) := by
  by_cases h : (firstSeenDedup (resultSetKeys base ++ resultSetKeys current)).any
      (fun name =>
        match jsGet current name with
        | some r => hasTimingData r
        | none => false) = true
  · simp [formatResults, h, formatTimeResult, Function.comp_def]
  · simp only [Bool.not_eq_true] at h
    simp [formatResults, h, formatSizeResult, Function.comp_def]

/-- C5: the data rows of `formatResults base current` carry exactly the names
`keys base ∪ keys current`: their name column is the first-seen deduplication
of the concatenated key lists (base keys first, head-only names after, no
sorting), each name appears exactly once, and the row order is a subsequence
of that concatenation. -/
theorem formatResults_row_names (base current : ResultSet) :
    ((formatResults base current).drop 1).map (fun row => row.headD "") =
        firstSeenDedup (resultSetKeys base ++ resultSetKeys current)
      ∧ (((formatResults base current).drop 1).map (fun row => row.headD "")).Nodup
      ∧ (∀ n : String,
          n ∈ ((formatResults base current).drop 1).map (fun row => row.headD "")
            ↔ (n ∈ resultSetKeys base ∨ n ∈ resultSetKeys current))
      ∧ (((formatResults base current).drop 1).map
          (fun row => row.headD "")).Sublist
            (resultSetKeys base ++ resultSetKeys current) := by
  have h := formatResults_drop_one_map_head base current
  refine ⟨h, ?_, ?_, ?_⟩
  · rw [h]; exact nodup_firstSeenDedup _
  · intro n
    rw [h, mem_firstSeenDedup]
    exact List.mem_append
  · rw [h]; exact sublist_firstSeenDedup _

/-- C6: `calculateChange 0 x` returns the fixed sentinel — value `100` and
`isPositive` true — for every `x`, including `x = 0`: the result does not
depend on `x` at all. -/
theorem calculateChange_base_zero (x : Rat) :
    (calculateChange 0 x).value = 100
      ∧ (calculateChange 0 x).isPositive = true
      ∧ calculateChange 0 x = calculateChange 0 0 := by
  have h : ∀ y : Rat, calculateChange 0 y = formatChange 100 true := fun y => by
    rw [calculateChange, if_pos rfl]
  exact ⟨by rw [h]; rfl, by rw [h]; rfl, by rw [h, h]⟩

/-- C7 counterexample: the rendered change string of
`calculateChange 10000 10001` is `"+0.01% ▲"` — as the claim itself says, the
percent sign and the directional glyph are suffixed after the number — so the
string does not end in `"0.01%"`. -/
theorem calculateChange_pretty_endsWith_counterexample :
    (calculateChange 10000 10001).pretty = "+0.01% ▲"
      ∧ jsEndsWith (calculateChange 10000 10001).pretty "0.01%" = false := by
  have h : (calculateChange 10000 10001).pretty = "+0.01% ▲" := by
    rw [calculateChange_pretty_eval 10000 10001 true 1 (by norm_num)
      (by rw [mathSign_eq_one_of_pos (by norm_num)]; decide)
      (by rw [mathAbs_of_nonneg (by norm_num)]
          exact mathCeil_eq (by norm_num) (by norm_num))]
    decide
  exact ⟨h, by rw [h]; decide⟩

/-- C7 (amended): for every non-zero base, `pretty` is the absolute value of
`value` multiplied by 100, ceiled, divided by 100, prefixed with `+`/`-` per
`isPositive` and suffixed with a percent sign and the directional glyph; in
particular `calculateChange 10000 10001` renders `"+0.01% ▲"`, whose numeric
portion is the ceiling `0.01` (the full string ends with the glyph, not with
`"0.01%"`). -/
theorem calculateChange_pretty_formation (base current : Rat)
    (hbase : ¬ base = 0) :
    ((calculateChange base current).pretty =
        (if mathSign (current - base) == 1 then "+" else "-")
          ++ hundredthsToString
              (mathCeil (mathAbs ((current - base) / base * 100) * 100)).toNat
          ++ "% "
          ++ (if mathSign (current - base) == 1 then "▲" else "▼"))
      ∧ (calculateChange 10000 10001).pretty = "+0.01% ▲" := by
  constructor
  · rw [calculateChange, if_neg hbase, formatChange]
  · rw [calculateChange_pretty_eval 10000 10001 true 1 (by norm_num)
      (by rw [mathSign_eq_one_of_pos (by norm_num)]; decide)
      (by rw [mathAbs_of_nonneg (by norm_num)]
          exact mathCeil_eq (by norm_num) (by norm_num))]
    decide

theorem calculateChange_pretty_formation_witness :
    (calculateChange 100 150).pretty =
        (if mathSign ((150 : Rat) - 100) == 1 then "+" else "-")
          ++ hundredthsToString
              (mathCeil (mathAbs (((150 : Rat) - 100) / 100 * 100) * 100)).toNat
          ++ "% "
          ++ (if mathSign ((150 : Rat) - 100) == 1 then "▲" else "▼") :=
  (calculateChange_pretty_formation 100 150 (by norm_num)).1

/-- C8: the installer resolution of `execSizeLimit` never consults the
detector when the option is unset: the destructuring default makes the
`packageManager || getPackageManager(...)` fallback unreachable, so an unset
installer resolves to npm even in a workspace whose detector reports bun —
whereas `getPackageManager` itself (and the action's documentation) would
resolve bun. -/
theorem resolvePackageManager_ignores_detection :
    resolvePackageManager none (some "bun") = PackageManager.Npm
      ∧ getPackageManager (some "bun") = PackageManager.Bun
      ∧ ∀ d : Option String, resolvePackageManager none d = PackageManager.Npm := by
  refine ⟨by decide, by decide, fun d => ?_⟩
  rw [resolvePackageManager,
    if_pos (by decide : pmToString (Option.getD none PackageManager.Npm) ≠ "")]
  rfl

/-- C1: the published report body is a single text block consisting, in
order, of the fixed heading, the rendered comparison table, a Base line with
the base branch and hash, a Head line with the head branch and hash, the
last-updated timestamp line, and the footer link (with the blank separator
lines of the report contract), joined with CRLF. -/
theorem formatSizeLimitResultsAsCommentBody_structure
    (results : List (List String)) (metadata : ComparisonMetadata)
    (generatedAt : String) :
    formatSizeLimitResultsAsCommentBody results metadata generatedAt =
        SIZE_LIMIT_HEADING ++ "\r\n" ++ markdownTable results ++ "\r\n" ++ ""
          ++ "\r\n" ++ baseMetadataLine metadata ++ "\r\n"
          ++ headMetadataLine metadata ++ "\r\n" ++ "" ++ "\r\n"
          ++ lastUpdatedLine generatedAt ++ "\r\n" ++ SIZE_LIMIT_FOOTER
      ∧ baseMetadataLine metadata =
          "- Base: `" ++ metadata.baseBranch ++ "` (`" ++ metadata.baseHash ++ "`)"
      ∧ headMetadataLine metadata =
          "- Head: `" ++ metadata.headBranch ++ "` (`" ++ metadata.headHash ++ "`)"
      ∧ lastUpdatedLine generatedAt = "*Last updated: " ++ generatedAt ++ "*"
      ∧ SIZE_LIMIT_HEADING = "## size-limit report 📦 "
      ∧ SIZE_LIMIT_FOOTER =
          "[Learn more about size-limit](https://github.com/ai/size-limit)" :=
  ⟨rfl, rfl, rfl, rfl, rfl, rfl⟩

/-- C10: `packageManagerFromStringToEnum` compares its input with surrounding
whitespace ignored and case folded against the five supported names, returning
the matching enum member (so `" NPM "` and `"Yarn"` are accepted) and `none` —
it is total, never throwing — for every other string. -/
theorem packageManagerFromStringToEnum_spec :
    (∀ s : String, ∀ m : PackageManager,
        packageManagerFromStringToEnum s = some m
          ↔ jsToLowerCase (jsTrim s) = pmToString m)
      ∧ packageManagerFromStringToEnum " NPM " = some PackageManager.Npm
      ∧ packageManagerFromStringToEnum "Yarn" = some PackageManager.Yarn
      ∧ packageManagerFromStringToEnum "\tpnpm\n" = some PackageManager.Pnpm
      ∧ packageManagerFromStringToEnum "gradle" = none := by
  refine ⟨?_, by decide, by decide, by decide, by decide⟩
  intro s m
  constructor
  · intro hfind
    have hp := List.find?_some hfind
    have e : jsToLowerCase (jsTrim (pmToString m)) = pmToString m := by
      cases m <;> decide
    have hm : pmToString m = jsToLowerCase (jsTrim s) := by simpa [e] using hp
    exact hm.symm
  · intro h
    rw [packageManagerFromStringToEnum, h]
    cases m <;> decide

/-- Well-formedness of the external comment store: the store assigns positive
ids, never repeats an id, and holds at most one report comment. -/
def StoreOk (store : CommentStore) : Prop :=
  (∀ c ∈ store, 0 < c.id) ∧ (store.map Comment.id).Nodup ∧ headingCount store ≤ 1

/-- A repeated publication: each call carries the body and the create/update
outcomes, applied left to right. -/
def publishAll (store : CommentStore) (calls : List (String × Bool × Bool)) :
    CommentStore :=
  calls.foldl (fun s c => (publishSizeLimitComment s c.1 c.2.1 c.2.2).1) store

theorem eq_of_mem_of_length_le_one {α : Type} {l : List α} (h : l.length ≤ 1)
    {a b : α} (ha : a ∈ l) (hb : b ∈ l) : a = b := by
  cases l with
  | nil => cases ha
  | cons x xs =>
      have hx : xs = [] := by
        cases xs with
        | nil => rfl
        | cons y ys => simp at h
      subst hx
      rw [List.mem_singleton] at ha hb
      rw [ha, hb]

theorem le_foldr_max (l : List Nat) : ∀ x ∈ l, x ≤ l.foldr max 0 := by
  induction l with
  | nil => intro x hx; cases hx
  | cons y l ih =>
      intro x hx
      rcases List.mem_cons.mp hx with rfl | hx
      · exact le_max_left _ _
      · exact le_trans (ih x hx) (le_max_right _ _)

theorem headingCount_eq_zero_of_fetch_none {store : CommentStore}
    (h : fetchSizeLimitCommentId store = none) : headingCount store = 0 := by
  rw [fetchSizeLimitCommentId, Option.map_eq_none'] at h
  rw [headingCount, List.countP_eq_zero]
  intro c hc
  have := List.find?_eq_none.mp h c hc
  simpa using this

theorem fetch_some_spec {store : CommentStore} {cid : Nat}
    (h : fetchSizeLimitCommentId store = some cid) :
    ∃ c ∈ store, jsStartsWith c.body SIZE_LIMIT_HEADING = true ∧ c.id = cid := by
  rw [fetchSizeLimitCommentId] at h
  rcases Option.map_eq_some'.mp h with ⟨c, hfind, hid⟩
  have hpred := List.find?_some hfind
  exact ⟨c, List.mem_of_find?_eq_some hfind, hpred, hid⟩

theorem storeOk_create {store : CommentStore} {body : String}
    (hok : StoreOk store) (hfetch : fetchSizeLimitCommentId store = none)
    (hbody : jsStartsWith body SIZE_LIMIT_HEADING = true) :
    StoreOk (createSizeLimitComment store body)
      ∧ (createSizeLimitComment store body).length = store.length + 1
      ∧ headingCount (createSizeLimitComment store body) = 1 := by
  obtain ⟨hpos, hnodup, _⟩ := hok
  have hcount0 := headingCount_eq_zero_of_fetch_none hfetch
  have hfreshNotMem : freshCommentId store ∉ store.map Comment.id := by
    intro hmem
    have := le_foldr_max (store.map Comment.id) _ hmem
    rw [freshCommentId] at this
    omega
  refine ⟨⟨?_, ?_, ?_⟩, ?_, ?_⟩
  · intro c hc
    rcases List.mem_append.mp hc with hc | hc
    · exact hpos c hc
    · rw [List.mem_singleton] at hc
      rw [hc, freshCommentId]
      exact Nat.succ_pos _
  · rw [createSizeLimitComment, List.map_append]
    exact List.Nodup.append hnodup (List.nodup_singleton _)
      (by simpa [List.disjoint_left] using hfreshNotMem)
  · rw [createSizeLimitComment, headingCount, List.countP_append]
    rw [headingCount] at hcount0
    rw [hcount0]
    simp [hbody]
  · rw [createSizeLimitComment, List.length_append]
    rfl
  · rw [createSizeLimitComment, headingCount, List.countP_append]
    rw [headingCount] at hcount0
    rw [hcount0]
    simp [hbody]

theorem updateSizeLimitComment_map_id (store : CommentStore) (cid : Nat)
    (body : String) :
    (updateSizeLimitComment store cid body).map Comment.id = store.map Comment.id := by
  rw [updateSizeLimitComment, List.map_map]
  apply List.map_congr_left
  intro c _
  by_cases h : c.id = cid <;> simp [h]

theorem storeOk_update {store : CommentStore} {cid : Nat} {body : String}
    (hok : StoreOk store) (hfetch : fetchSizeLimitCommentId store = some cid)
    (_hbody : jsStartsWith body SIZE_LIMIT_HEADING = true) :
    StoreOk (updateSizeLimitComment store cid body)
      ∧ (updateSizeLimitComment store cid body).length = store.length := by
  obtain ⟨hpos, hnodup, hcount⟩ := hok
  obtain ⟨c0, hc0mem, hc0body, hc0id⟩ := fetch_some_spec hfetch
  refine ⟨⟨?_, ?_, ?_⟩, ?_⟩
  · intro c hc
    rw [updateSizeLimitComment] at hc
    rcases List.mem_map.mp hc with ⟨d, hd, rfl⟩
    by_cases h : d.id = cid
    · simpa [h] using hpos d hd
    · simpa [h] using hpos d hd
  · rw [updateSizeLimitComment_map_id]
    exact hnodup
  · rw [updateSizeLimitComment, headingCount, List.countP_map]
    have hmono : ∀ c ∈ store,
        ((fun c : Comment => jsStartsWith c.body SIZE_LIMIT_HEADING) ∘
          (fun c : Comment =>
            if c.id = cid then { id := c.id, body := body } else c)) c = true →
          (fun c : Comment => c.id == cid) c = true := by
      intro c hc hpred
      by_cases h : c.id = cid
      · simpa using h
      · simp only [Function.comp_apply, if_neg h] at hpred
        have : c = c0 := by
          apply eq_of_mem_of_length_le_one
            (le_trans (le_of_eq (List.countP_eq_length_filter _ _).symm) hcount)
          · exact List.mem_filter.mpr ⟨hc, hpred⟩
          · exact List.mem_filter.mpr ⟨hc0mem, hc0body⟩
        rw [this] at h
        exact absurd hc0id h
    calc List.countP _ store
        ≤ store.countP (fun c : Comment => c.id == cid) :=
          List.countP_mono_left hmono
      _ = store.countP ((fun x => x == cid) ∘ Comment.id) := rfl
      _ = (store.map Comment.id).countP (fun x => x == cid) :=
          (List.countP_map _ _ _).symm
      _ = (store.map Comment.id).count cid :=
          (List.count_eq_countP _ _).symm
      _ ≤ 1 := List.nodup_iff_count_le_one.mp hnodup cid
  · rw [updateSizeLimitComment, List.length_map]

theorem publish_preserves_storeOk {store : CommentStore} {body : String}
    {co uo : Bool} (hok : StoreOk store)
    (hbody : jsStartsWith body SIZE_LIMIT_HEADING = true) :
    StoreOk (publishSizeLimitComment store body co uo).1 := by
  rw [publishSizeLimitComment]
  cases hfetch : fetchSizeLimitCommentId store with
  | none =>
      cases co with
      | true => exact (storeOk_create hok hfetch hbody).1
      | false => exact hok
  | some cid =>
      have hcidpos : 0 < cid := by
        obtain ⟨c0, hc0mem, _, hc0id⟩ := fetch_some_spec hfetch
        rw [← hc0id]
        exact hok.1 c0 hc0mem
      have hne : cid ≠ 0 := Nat.pos_iff_ne_zero.mp hcidpos
      cases uo with
      | true => simpa [hne] using (storeOk_update hok hfetch hbody).1
      | false => simpa [hne] using hok

theorem publishAll_preserves_storeOk (calls : List (String × Bool × Bool)) :
    ∀ store : CommentStore, StoreOk store →
      (∀ c ∈ calls, jsStartsWith c.1 SIZE_LIMIT_HEADING = true) →
      StoreOk (publishAll store calls) := by
  induction calls with
  | nil => intro store hok _; exact hok
  | cons call calls ih =>
      intro store hok hbodies
      rw [publishAll, List.foldl_cons]
      exact ih _ (publish_preserves_storeOk hok (hbodies call (List.mem_cons_self _ _)))
        (fun c hc => hbodies c (List.mem_cons_of_mem _ hc))

/-- C2: over any well-formed store holding at most one report comment, any
sequence of publishes of heading-prefixed bodies leaves at most one report
comment (so publishing twice never produces two); moreover a publish updates
the found comment in place — never growing the store — and creates a new
comment only when no report comment is found. -/
theorem publishSizeLimitComment_idempotent (store : CommentStore)
    (calls : List (String × Bool × Bool))
    (hok : StoreOk store)
    (hbodies : ∀ c ∈ calls, jsStartsWith c.1 SIZE_LIMIT_HEADING = true) :
    headingCount (publishAll store calls) ≤ 1
      ∧ (∀ body : String, ∀ co uo : Bool,
          fetchSizeLimitCommentId store = none → co = true →
            (publishSizeLimitComment store body co uo).1 =
              createSizeLimitComment store body)
      ∧ (∀ body : String, ∀ co uo : Bool, ∀ cid : Nat,
          fetchSizeLimitCommentId store = some cid → uo = true →
            (publishSizeLimitComment store body co uo).1 =
                updateSizeLimitComment store cid body
              ∧ (publishSizeLimitComment store body co uo).1.length = store.length) := by
  refine ⟨(publishAll_preserves_storeOk calls store hok hbodies).2.2, ?_, ?_⟩
  · intro body co uo hfetch hco
    subst hco
    simp [publishSizeLimitComment, hfetch]
  · intro body co uo cid hfetch huo
    subst huo
    have hcidpos : 0 < cid := by
      obtain ⟨c0, hc0mem, _, hc0id⟩ := fetch_some_spec hfetch
      rw [← hc0id]
      exact hok.1 c0 hc0mem
    have hne : cid ≠ 0 := Nat.pos_iff_ne_zero.mp hcidpos
    have heq : (publishSizeLimitComment store body co true).1 =
        updateSizeLimitComment store cid body := by
      simp [publishSizeLimitComment, hfetch, hne]
    refine ⟨heq, ?_⟩
    rw [heq, updateSizeLimitComment, List.length_map]

theorem publishSizeLimitComment_idempotent_witness :
    headingCount (publishAll []
      [(SIZE_LIMIT_HEADING ++ "a", true, true),
        (SIZE_LIMIT_HEADING ++ "b", true, true)]) ≤ 1 :=
  (publishSizeLimitComment_idempotent []
    [(SIZE_LIMIT_HEADING ++ "a", true, true),
      (SIZE_LIMIT_HEADING ++ "b", true, true)]
    ⟨by decide, by decide, by decide⟩ (by decide)).1

theorem skip_cond_false {input : RunInput}
    (hskip : input.skipStepInput = "" ∨ input.skipStepInput = "install"
      ∨ input.skipStepInput = "build") :
    ¬ (input.skipStepInput ≠ "" ∧ input.skipStepInput ≠ "install"
        ∧ input.skipStepInput ≠ "build") := by
  rcases hskip with h | h | h <;> simp [h]

theorem pm_cond_false {input : RunInput}
    (hpm : input.packageManagerInput = ""
      ∨ (packageManagerFromStringToEnum input.packageManagerInput).isSome = true) :
    ¬ (input.packageManagerInput ≠ ""
        ∧ packageManagerFromStringToEnum input.packageManagerInput = none) := by
  rcases hpm with h | h
  · simp [h]
  · rintro ⟨_, hnone⟩
    rw [hnone] at h
    cases h

/-- C3 (amended): in a run whose analysis phase completes with positive head
status, the orchestration reports failure provided the base output parses (or
the head output fails to parse, which is itself fatal); when base parsing
fails, the comparison is abandoned with only a warning and no failure is
reported even though the head status is positive.  The publish outcomes
(`createCommentOk`/`updateCommentOk`) are arbitrary throughout: publish
failures never suppress the failure signal. -/
theorem run_exit_signal (input : RunInput) (pr : PullRequestInfo)
    (analysis : AnalysisOutcome)
    (hpr : input.pullRequest = some pr)
    (hskip : input.skipStepInput = "" ∨ input.skipStepInput = "install"
      ∨ input.skipStepInput = "build")
    (hpm : input.packageManagerInput = ""
      ∨ (packageManagerFromStringToEnum input.packageManagerInput).isSome = true)
    (hinner : innerTryResult input = .ok analysis)
    (hstatus : 0 < analysis.status) :
    (∀ base : ResultSet, input.baseParse = .ok base →
        (run input).failed = true)
      ∧ (∀ m : String, input.baseParse = .error m →
        (run input).failed = false) := by
  have hc1 := skip_cond_false hskip
  have hc2 := pm_cond_false hpm
  constructor
  · intro base hbase
    simp only [run, hpr, if_neg hc1, if_neg hc2, runComparison, hinner, hbase]
    cases hhp : input.headParse with
    | error m => rfl
    | ok current =>
        simp only []
        exact decide_eq_true hstatus
  · intro m hbase
    simp only [run, hpr, if_neg hc1, if_neg hc2, runComparison, hinner, hbase]

/-- A concrete pull request for run examples. -/
def sampleRunPR : PullRequestInfo :=
  { baseRef := "main", headRef := "feature", number := 1 }

/-- A complete run input whose head analyze step exits with status 1 but whose
base output does not parse. -/
def baseParseFailInput : RunInput :=
  { pullRequest := some sampleRunPR
    skipStepInput := ""
    packageManagerInput := ""
    createBaseWorktree := .ok ()
    createHeadWorktree := .ok ()
    baseExec := .ok { status := 0, output := "not json", commitHash := "abc1234" }
    headExec := .ok { status := 1, output := "[]", commitHash := "def5678" }
    removeBaseWorktree := .ok ()
    removeHeadWorktree := .ok ()
    baseParse := .error "Unexpected token"
    headParse := .ok []
    store := []
    createCommentOk := true
    updateCommentOk := true
    now := "Mon, 01 Jan 2024 00:00:00 GMT" }

/-- C3 counterexample: a run whose head analyze step exited with status 1
(greater than zero) but which reports no failure, because the base output did
not parse and the comparison was abandoned with a warning. -/
theorem run_exit_signal_counterexample :
    (∃ r : ExecSizeLimitResult,
        baseParseFailInput.headExec = Except.ok r ∧ 0 < r.status)
      ∧ (run baseParseFailInput).failed = false :=
  ⟨⟨{ status := 1, output := "[]", commitHash := "def5678" }, rfl, by decide⟩,
    by decide⟩

/-- A complete run input whose head analyze step exits with status 1 and whose
base output parses. -/
def exceededStatusInput : RunInput :=
  { pullRequest := some sampleRunPR
    skipStepInput := ""
    packageManagerInput := ""
    createBaseWorktree := .ok ()
    createHeadWorktree := .ok ()
    baseExec := .ok { status := 0, output := "[]", commitHash := "abc1234" }
    headExec := .ok { status := 1, output := "[]", commitHash := "def5678" }
    removeBaseWorktree := .ok ()
    removeHeadWorktree := .ok ()
    baseParse := .ok []
    headParse := .ok []
    store := []
    createCommentOk := false
    updateCommentOk := false
    now := "Mon, 01 Jan 2024 00:00:00 GMT" }

theorem run_exit_signal_witness :
    (run exceededStatusInput).failed = true :=
  (run_exit_signal exceededStatusInput sampleRunPR
      { baseOutput := "[]", baseHash := "abc1234", status := 1, output := "[]",
        headHash := "def5678" }
      rfl (Or.inl rfl) (Or.inl rfl) rfl (by decide)).1 [] rfl

/-- C9: once the comparison passes validation and enters its worktree phase,
workspace disposal is invoked exactly once for each of the two workspace paths
on every exit path (success, one-side failure or both-side failure of
provisioning, analysis, parsing or publishing); disposal outcomes never change
the primary outcome — failure flag, failure message, trace and store are the
same whatever the removal outcomes — and a failing removal is only downgraded
to a warning in the warning list. -/
theorem run_disposal_spec (input : RunInput) (pr : PullRequestInfo)
    (hpr : input.pullRequest = some pr)
    (hskip : input.skipStepInput = "" ∨ input.skipStepInput = "install"
      ∨ input.skipStepInput = "build")
    (hpm : input.packageManagerInput = ""
      ∨ (packageManagerFromStringToEnum input.packageManagerInput).isSome = true) :
    ((run input).trace.count (RunEvent.removeWorktreeEv baseWorktreePath) = 1
        ∧ (run input).trace.count (RunEvent.removeWorktreeEv headWorktreePath) = 1)
      ∧ (∀ rb rh : Except String Unit,
          (run { input with removeBaseWorktree := rb, removeHeadWorktree := rh }).failed
              = (run input).failed
            ∧ (run { input with removeBaseWorktree := rb, removeHeadWorktree := rh }).failedMessage
              = (run input).failedMessage
            ∧ (run { input with removeBaseWorktree := rb, removeHeadWorktree := rh }).trace
              = (run input).trace
            ∧ (run { input with removeBaseWorktree := rb, removeHeadWorktree := rh }).store
              = (run input).store)
      ∧ (∀ m : String, input.removeBaseWorktree = .error m →
          ("Failed to remove worktree at " ++ baseWorktreePath ++ ": " ++ m)
            ∈ (run input).warnings) := by
  have hc1 := skip_cond_false hskip
  have hc2 := pm_cond_false hpm
  have hrun : run input =
      { trace := innerTryTrace input ++
          [RunEvent.removeWorktreeEv baseWorktreePath,
            RunEvent.removeWorktreeEv headWorktreePath]
        warnings :=
          removeWorktree input.removeBaseWorktree baseWorktreePath ++
            removeWorktree input.removeHeadWorktree headWorktreePath ++
              (runComparison input pr).warnings
        failed := (runComparison input pr).failed
        failedMessage := (runComparison input pr).failedMessage
        store := (runComparison input pr).store } := by
    simp only [run, hpr, if_neg hc1, if_neg hc2]
  have hnotmem : ∀ p : String,
      RunEvent.removeWorktreeEv p ∉ innerTryTrace input := by
    intro p hmem
    rw [innerTryTrace] at hmem
    rcases List.mem_append.mp hmem with h | h
    · simp at h
    · revert h
      cases input.createBaseWorktree <;> cases input.createHeadWorktree <;> simp
  refine ⟨⟨?_, ?_⟩, ?_, ?_⟩
  · rw [hrun]
    simp only [List.count_append]
    rw [List.count_eq_zero.mpr (hnotmem _)]
    decide
  · rw [hrun]
    simp only [List.count_append]
    rw [List.count_eq_zero.mpr (hnotmem _)]
    decide
  · intro rb rh
    have hJ : run { input with removeBaseWorktree := rb, removeHeadWorktree := rh } =
        { trace := innerTryTrace
            { input with removeBaseWorktree := rb, removeHeadWorktree := rh } ++
              [RunEvent.removeWorktreeEv baseWorktreePath,
                RunEvent.removeWorktreeEv headWorktreePath]
          warnings :=
            removeWorktree rb baseWorktreePath ++
              removeWorktree rh headWorktreePath ++
                (runComparison
                  { input with removeBaseWorktree := rb, removeHeadWorktree := rh }
                  pr).warnings
          failed := (runComparison
            { input with removeBaseWorktree := rb, removeHeadWorktree := rh }
            pr).failed
          failedMessage := (runComparison
            { input with removeBaseWorktree := rb, removeHeadWorktree := rh }
            pr).failedMessage
          store := (runComparison
            { input with removeBaseWorktree := rb, removeHeadWorktree := rh }
            pr).store } := by
      simp only [run, hpr, if_neg hc1, if_neg hc2]
    have hcore : runComparison
        { input with removeBaseWorktree := rb, removeHeadWorktree := rh } pr =
          runComparison input pr := rfl
    have htr : innerTryTrace
        { input with removeBaseWorktree := rb, removeHeadWorktree := rh } =
          innerTryTrace input := rfl
    rw [hJ, hrun, hcore, htr]
    exact ⟨rfl, rfl, rfl, rfl⟩
  · intro m hm
    rw [hrun, hm]
    simp [removeWorktree]

theorem run_disposal_spec_witness :
    (run baseParseFailInput).trace.count
        (RunEvent.removeWorktreeEv baseWorktreePath) = 1
      ∧ (run baseParseFailInput).trace.count
        (RunEvent.removeWorktreeEv headWorktreePath) = 1 :=
  (run_disposal_spec baseParseFailInput sampleRunPR rfl (Or.inl rfl)
    (Or.inl rfl)).1

end SizeLimitAction
